import Mathlib

/-!
# Verification of the uniqlo-project-multi-country crawl-and-extract engine

Shallow embedding of the resilient crawl-and-extract engine of the repository:
the checkpointed bounded-concurrency product pool, the per-product variant
walk (`processProduct` / `visitAndRead` / `discoverColorUrls` /
`readColorAndSizes` from the sizes-fetching script), the scroll-convergence
loop and `gotoWithRetry` from `fetch-html.js`, and the `saveProgress`
checkpoint flush.

JavaScript strings are modelled as Lean `String`, machine numbers as `Nat`
(all counters involved are small non-negative integers), fallible
asynchronous actions as `Except`/`Option`-valued functions, and the live
browser page as an explicit DOM snapshot value.  Each definition mirrors the
corresponding source function; theorems settle the frozen claims.
-/

namespace Uniqlo

/-- JavaScript `Array.prototype.join(sep)`: empty list gives `""`, otherwise
the elements interleaved with the separator. -/
def jsJoin (sep : String) : List String → String
  | [] => ""
  | v :: rest =>
    match rest with
    | [] => v
    | _ :: _ => v ++ sep ++ jsJoin sep rest

/-- Building a JavaScript `Set` from a list and spreading it back to an
array: keeps the first occurrence of each element, in insertion order,
comparing elements by raw string equality. -/
def insertOrderDedup (l : List String) : List String :=
  l.foldl (fun acc u => if u ∈ acc then acc else acc ++ [u]) []

/-! ## CheckpointedPool (sizes script, main IIFE)

`processProduct` increments the shared `processed` counter once per completed
product.  A product whose variant-URL list is empty returns early *before*
the cadence check; otherwise, after the product is finished,
`if (processed % BATCH_SIZE === 0) saveProgress(...)`.  After the batched
loop an unconditional final `saveProgress` runs.  JavaScript is
single-threaded, so even with the concurrency pool the completions form a
sequence and `processed` increments atomically per completion; the model
folds over the completion order.  A product is represented by the flag
"has an empty variant-URL list". -/

/-- One completion step of the pool: bump `processed`; flush when the product
was non-empty and the counter hit the cadence.  State is
`(processed, flushes)`. -/
def poolProcess (B : Nat) : List Bool → Nat × Nat → Nat × Nat
  | [], s => s
  | isEmpty :: rest, (p, f) =>
    poolProcess B rest (p + 1, if isEmpty then f else if (p + 1) % B = 0 then f + 1 else f)

/-- Total number of `saveProgress` calls for a run: the cadence flushes of
`poolProcess` plus the one unconditional final flush. -/
def totalFlushes (B : Nat) (prods : List Bool) : Nat :=
  (poolProcess B prods (0, 0)).2 + 1

/-! ## RetryExecutor (`gotoWithRetry`, fetch-html.js lines 33–44)

`for (let i = 0; i < attempts; i++) { try { return await page.goto(...) }
catch (err) { if (i === attempts - 1) throw err; delay = 2000 * 2**i;
... sleep(delay) } }`.  The fallible action is modelled as a function from
the attempt index to an `Except`; the result records the outcome (`none`
when `attempts = 0`, where the JS loop body never runs) together with the
list of back-off delays actually slept. -/
def retryRun {ε α : Type} (act : Nat → Except ε α) : Nat → Nat → Option (Except ε α) × List Nat
  | _, 0 => (none, [])
  | i, remaining + 1 =>
    match act i with
    | Except.ok a => (some (Except.ok a), [])
    | Except.error e =>
      match remaining with
      | 0 => (some (Except.error e), [])
      | _ + 1 =>
        ((retryRun act (i + 1) remaining).1, 2000 * 2 ^ i :: (retryRun act (i + 1) remaining).2)

/-- `gotoWithRetry(page, url, options, attempts)`: run the retry loop from
attempt index 0. -/
def gotoWithRetry {ε α : Type} (act : Nat → Except ε α) (attempts : Nat) :
    Option (Except ε α) × List Nat :=
  retryRun act 0 attempts

/-! ### C1 helper lemmas -/

theorem poolProcess_replicate_false (B : Nat) :
    ∀ (n p f : Nat), poolProcess B (List.replicate n false) (p, f) =
      (p + n, f + ((p + n) / B - p / B)) := by
  intro n
  induction n with
  | zero => intro p f; simp [poolProcess]
  | succ m ih =>
    intro p f
    rw [List.replicate_succ]
    show poolProcess B (List.replicate m false)
      (p + 1, if (p + 1) % B = 0 then f + 1 else f) = _
    rw [ih (p + 1) (if (p + 1) % B = 0 then f + 1 else f)]
    have hd : (p + 1) / B = p / B + if B ∣ p + 1 then 1 else 0 := Nat.succ_div p B
    have hmod : (p + 1) % B = 0 ↔ B ∣ p + 1 := Nat.dvd_iff_mod_eq_zero.symm
    have h3 : p + 1 + m = p + (m + 1) := by omega
    rw [h3]
    have hmono : (p + 1) / B ≤ (p + (m + 1)) / B := Nat.div_le_div_right (by omega)
    have hmono2 : p / B ≤ (p + 1) / B := Nat.div_le_div_right (by omega)
    simp only [Prod.mk.injEq, true_and]
    by_cases hdvd : B ∣ p + 1
    · rw [if_pos (hmod.mpr hdvd)]
      rw [if_pos hdvd] at hd
      omega
    · rw [if_neg (fun h => hdvd (hmod.mp h))]
      rw [if_neg hdvd] at hd
      omega

/-- C1, counterexample.  One product (with a non-empty variant-URL list) and
cadence 5: the code performs no cadence flush (the counter never hits a
multiple of 5) and one final flush, 1 in total, while the claim's formula
`⌈N/B⌉` cadence flushes plus one final flush demands `⌈1/5⌉ + 1 = 2`. -/
theorem c1_flush_count_counterexample :
    totalFlushes 5 (List.replicate 1 false) = 1 ∧ (1 + 5 - 1) / 5 + 1 = 2 ∧ (1 : Nat) ≠ 2 := by
  decide

/-- C1, amended: after the pool processes `N` products, each with at least
one variant URL, with cadence `B > 0`, the flush count is `⌊N/B⌋` cadence
flushes plus exactly one unconditional final flush, `⌊N/B⌋ + 1` in total.
When `B` divides `N` the `N`-th completion triggers a cadence flush *and*
the final flush still runs, so the end of the run is double-flushed rather
than de-duplicated. -/
theorem c1_flush_count (n B : Nat) (_hB : 0 < B) :
    totalFlushes B (List.replicate n false) = n / B + 1 := by
  unfold totalFlushes
  rw [poolProcess_replicate_false B n 0 0]
  simp

/-- C1 witness: 10 products at cadence 5 give `10/5 + 1 = 3` flushes —
the cadence flushes at the 5th and 10th completions plus the final flush
(the multiple-of-`B` end is double-flushed). -/
theorem c1_flush_count_witness :
    totalFlushes 5 (List.replicate 10 false) = 10 / 5 + 1 :=
  c1_flush_count 10 5 (by decide)

/-! ### C8: retry with exponential backoff -/

theorem retryRun_all_fail {ε α : Type} (act : Nat → Except ε α) (e : Nat → ε) :
    ∀ (remaining i : Nat), 0 < remaining →
      (∀ j, i ≤ j → j < i + remaining → act j = Except.error (e j)) →
      retryRun act i remaining =
        (some (Except.error (e (i + remaining - 1))),
          (List.range (remaining - 1)).map fun t => 2000 * 2 ^ (i + t)) := by
  intro remaining
  induction remaining with
  | zero => intro i h; omega
  | succ r ih =>
    intro i _ hfail
    have hi : act i = Except.error (e i) := hfail i (le_refl i) (by omega)
    cases r with
    | zero => simp [retryRun, hi]
    | succ r' =>
      have hrec := ih (i + 1) (by omega) (fun j h1 h2 => hfail j (by omega) (by omega))
      have hstep : retryRun act i (r' + 1 + 1)
          = ((retryRun act (i + 1) (r' + 1)).1,
             2000 * 2 ^ i :: (retryRun act (i + 1) (r' + 1)).2) := by
        conv_lhs => rw [retryRun]
        rw [hi]
      have e1 : i + 1 + (r' + 1) - 1 = i + (r' + 1 + 1) - 1 := by omega
      have e2 : r' + 1 - 1 = r' := by omega
      have e3 : r' + 1 + 1 - 1 = r' + 1 := by omega
      rw [e1, e2] at hrec
      rw [hstep, hrec]
      simp only [Prod.mk.injEq, e3]
      refine ⟨trivial, ?_⟩
      rw [List.range_succ_eq_map, List.map_cons]
      congr 1
      rw [List.map_map]
      apply List.map_congr_left
      intro a _
      have h4 : i + 1 + a = i + (a + 1) := by omega
      simp only [Function.comp_apply, Nat.succ_eq_add_one, h4]

theorem retryRun_first_ok {ε α : Type} (act : Nat → Except ε α) (e : Nat → ε) (a : α) :
    ∀ (k remaining i : Nat), k < remaining →
      (∀ j, i ≤ j → j < i + k → act j = Except.error (e j)) →
      act (i + k) = Except.ok a →
      retryRun act i remaining =
        (some (Except.ok a), (List.range k).map fun t => 2000 * 2 ^ (i + t)) := by
  intro k
  induction k with
  | zero =>
    intro remaining i hk _ hok
    cases remaining with
    | zero => omega
    | succ r =>
      rw [Nat.add_zero] at hok
      cases r with
      | zero => simp [retryRun, hok]
      | succ r' => simp [retryRun, hok]
  | succ m ih =>
    intro remaining i hk hfail hok
    cases remaining with
    | zero => omega
    | succ r =>
      have hi : act i = Except.error (e i) := hfail i (le_refl i) (by omega)
      cases r with
      | zero => omega
      | succ r' =>
        have hrec := ih (r' + 1) (i + 1) (by omega)
          (fun j h1 h2 => hfail j (by omega) (by omega))
          (by rw [show i + 1 + m = i + (m + 1) from by omega]; exact hok)
        have hstep : retryRun act i (r' + 1 + 1)
            = ((retryRun act (i + 1) (r' + 1)).1,
               2000 * 2 ^ i :: (retryRun act (i + 1) (r' + 1)).2) := by
          conv_lhs => rw [retryRun]
          rw [hi]
        rw [hstep, hrec]
        simp only [Prod.mk.injEq]
        refine ⟨trivial, ?_⟩
        rw [List.range_succ_eq_map, List.map_cons]
        congr 1
        rw [List.map_map]
        apply List.map_congr_left
        intro t _
        have h4 : i + 1 + t = i + (t + 1) := by omega
        simp only [Function.comp_apply, Nat.succ_eq_add_one, h4]

/-- C8: the retry wrapper, modelled over an arbitrary error type `ε` (the
code never inspects the thrown error, so the theorem is uniform in `ε`).
First conjunct: if every attempt of a positive budget fails, each failed
non-final attempt sleeps exactly `2000 · 2^i` (base delay times two to the
attempt index) before the next attempt runs, and the final attempt's error —
not an earlier one, and not a swallowed success — is propagated.  Second
conjunct: if the first `k` attempts fail and attempt `k` (still within the
budget) succeeds, the wrapper returns that success after having slept the
`k` back-off delays, confirming that a failure with attempts remaining
leads to a retry. -/
theorem c8_gotoWithRetry_backoff {ε α : Type} (act : Nat → Except ε α) (e : Nat → ε)
    (attempts : Nat) :
    (0 < attempts → (∀ i, i < attempts → act i = Except.error (e i)) →
      gotoWithRetry act attempts =
        (some (Except.error (e (attempts - 1))),
          (List.range (attempts - 1)).map fun i => 2000 * 2 ^ i)) ∧
    (∀ k a, k < attempts → (∀ i, i < k → act i = Except.error (e i)) →
      act k = Except.ok a →
      gotoWithRetry act attempts =
        (some (Except.ok a), (List.range k).map fun i => 2000 * 2 ^ i)) := by
  constructor
  · intro hpos hfail
    have h := retryRun_all_fail act e attempts 0 hpos
      (fun j _ h2 => hfail j (by omega))
    unfold gotoWithRetry
    rw [h]
    simp
  · intro k a hk hfail hok
    have h := retryRun_first_ok act e a k attempts 0 hk
      (fun j _ h2 => hfail j (by omega)) (by simpa using hok)
    unfold gotoWithRetry
    rw [h]
    simp

/-- C8 witness: budget 3.  All-fail case: the errors are retried with sleeps
`[2000, 4000]` and the third attempt's error is propagated; mixed case: one
failure, one sleep of 2000 ms, then the success is returned. -/
theorem c8_gotoWithRetry_backoff_witness :
    gotoWithRetry (fun i => (Except.error i : Except Nat Unit)) 3 =
      (some (Except.error 2), [2000, 4000]) ∧
    gotoWithRetry (fun i => if i = 0 then (Except.error 7 : Except Nat Nat)
        else Except.ok 5) 3 =
      (some (Except.ok 5), [2000]) := by
  constructor
  · have h := (c8_gotoWithRetry_backoff (fun i => (Except.error i : Except Nat Unit))
      (fun i => i) 3).1 (by decide) (fun i _ => rfl)
    rw [h]
    rfl
  · have h := (c8_gotoWithRetry_backoff (fun i => if i = 0 then (Except.error 7 : Except Nat Nat)
        else Except.ok 5) (fun _ => 7) 3).2 1 5 (by decide)
      (fun i hi => by interval_cases i; rfl) (by rfl)
    rw [h]
    rfl

/-! ## ScrollConvergenceDetector (fetch-html.js lines 86–108)

`let previousCount = 0; let stableCounter = 0; const maxStable = 3;
const maxScrolls = 150;
for (let i = 0; i < maxScrolls && stableCounter < maxStable; i++) {
  const currentCount = probe();
  if (currentCount === previousCount && currentCount > 0) stableCounter++;
  else if (currentCount !== previousCount) { stableCounter = 0;
    previousCount = currentCount; }
  scroll(); sleep(3000);
}`
The probe readings are modelled as a list of `Nat` fed to the loop; the
loop consumes one reading per iteration and stops at the iteration cap, at
the stability threshold, or when the supplied readings run out. -/

/-- Stability threshold (`maxStable` in fetch-html.js). -/
def maxStable : Nat := 3

/-- Absolute iteration cap (`maxScrolls` in fetch-html.js). -/
def maxScrolls : Nat := 150

/-- One loop body: update `(previousCount, stableCounter)` from the current
reading `c`. -/
def scrollStep (prev stable c : Nat) : Nat × Nat :=
  if c = prev ∧ 0 < c then (prev, stable + 1)
  else if c ≠ prev then (c, 0)
  else (prev, stable)

/-- Outcome of the scroll loop: final `previousCount`, final
`stableCounter`, and the number of iterations executed. -/
structure ScrollResult where
  prev : Nat
  stable : Nat
  iters : Nat
deriving DecidableEq

/-- The scroll loop itself: `fuel` is the number of iterations the cap still
allows; the loop-condition check `stableCounter < maxStable` happens before
each iteration, exactly as in the `for` head. -/
def scrollGo : Nat → Nat → Nat → List Nat → ScrollResult
  | 0, prev, stable, _ => ⟨prev, stable, 0⟩
  | fuel + 1, prev, stable, counts =>
    if maxStable ≤ stable then ⟨prev, stable, 0⟩
    else
      match counts with
      | [] => ⟨prev, stable, 0⟩
      | c :: rest =>
        ⟨(scrollGo fuel (scrollStep prev stable c).1 (scrollStep prev stable c).2 rest).prev,
         (scrollGo fuel (scrollStep prev stable c).1 (scrollStep prev stable c).2 rest).stable,
         (scrollGo fuel (scrollStep prev stable c).1 (scrollStep prev stable c).2 rest).iters + 1⟩

/-- Run the loop with the initial state of the source
(`previousCount = 0`, `stableCounter = 0`) under the iteration cap. -/
def scrollLoopRun (counts : List Nat) : ScrollResult :=
  scrollGo maxScrolls 0 0 counts

/-- The loop left via the stability condition: the final `stableCounter`
reached the threshold. -/
def scrollConverged (counts : List Nat) : Bool :=
  decide (maxStable ≤ (scrollLoopRun counts).stable)

/-- Four consecutive readings at positions `k..k+3` are equal and
non-zero. -/
abbrev winAt (counts : List Nat) (k : Nat) : Prop :=
  k + 3 < counts.length ∧ 0 < counts.getD k 0 ∧
    counts.getD (k + 1) 0 = counts.getD k 0 ∧
    counts.getD (k + 2) 0 = counts.getD k 0 ∧
    counts.getD (k + 3) 0 = counts.getD k 0

/-- Intermediate loop characterization: started from `(prev, stable)`, the
streak can still finish its current run if the next `3 - stable` readings
all repeat a positive `prev`. -/
abbrev runPrefixOk (prev stable fuel : Nat) (counts : List Nat) : Prop :=
  0 < prev ∧ 3 - stable ≤ fuel ∧ 3 - stable ≤ counts.length ∧
    ∀ j, j < 3 - stable → counts.getD j 0 = prev

theorem scrollGo_iters_le : ∀ (counts : List Nat) (fuel prev stable : Nat),
    (scrollGo fuel prev stable counts).iters ≤ fuel ∧
    (scrollGo fuel prev stable counts).iters ≤ counts.length := by
  intro counts
  induction counts with
  | nil =>
    intro fuel prev stable
    cases fuel with
    | zero => simp [scrollGo]
    | succ f =>
      by_cases hs : maxStable ≤ stable <;> simp [scrollGo, hs]
  | cons c rest ih =>
    intro fuel prev stable
    cases fuel with
    | zero => simp [scrollGo]
    | succ f =>
      by_cases hs : maxStable ≤ stable
      · simp [scrollGo, hs]
      · have h := ih f (scrollStep prev stable c).1 (scrollStep prev stable c).2
        simp only [scrollGo, if_neg hs, List.length_cons]
        omega

theorem winAt_cons_succ (c : Nat) (rest : List Nat) (k : Nat) :
    winAt (c :: rest) (k + 1) ↔ winAt rest k := by
  have g1 : (c :: rest).getD (k + 1) 0 = rest.getD k 0 := rfl
  have g2 : (c :: rest).getD (k + 1 + 1) 0 = rest.getD (k + 1) 0 := rfl
  have g3 : (c :: rest).getD (k + 1 + 2) 0 = rest.getD (k + 2) 0 := rfl
  have g4 : (c :: rest).getD (k + 1 + 3) 0 = rest.getD (k + 3) 0 := rfl
  unfold winAt
  rw [g1, g2, g3, g4, List.length_cons]
  constructor
  · rintro ⟨h1, h2⟩
    exact ⟨by omega, h2⟩
  · rintro ⟨h1, h2⟩
    exact ⟨by omega, h2⟩

/-- Loop-invariant characterization of the scroll loop: started from state
`(prev, stable)` with `fuel` iterations allowed, the streak reaches the
threshold 3 iff it already has, or the next `3 - stable` readings repeat a
positive `prev`, or four consecutive equal positive readings occur with the
fourth still inside the fuel budget. -/
theorem scrollGo_conv_iff : ∀ (counts : List Nat) (fuel prev stable : Nat),
    3 ≤ (scrollGo fuel prev stable counts).stable ↔
      3 ≤ stable ∨ runPrefixOk prev stable fuel counts ∨
        ∃ k, k + 3 < fuel ∧ winAt counts k := by
  intro counts
  induction counts with
  | nil =>
    intro fuel prev stable
    have hgo : (scrollGo fuel prev stable []).stable = stable := by
      cases fuel with
      | zero => rfl
      | succ f => by_cases hs : maxStable ≤ stable <;> simp [scrollGo, hs]
    rw [hgo]
    constructor
    · intro h
      exact Or.inl h
    · rintro (h | ⟨_, _, hl, _⟩ | ⟨k, _, hw, _⟩)
      · exact h
      · simp only [List.length_nil, Nat.le_zero] at hl
        omega
      · simp only [List.length_nil] at hw
        omega
  | cons c rest ih =>
    intro fuel prev stable
    cases fuel with
    | zero =>
      rw [show (scrollGo 0 prev stable (c :: rest)).stable = stable from rfl]
      constructor
      · intro h
        exact Or.inl h
      · rintro (h | ⟨_, hf, _, _⟩ | ⟨k, hk, _⟩)
        · exact h
        · omega
        · omega
    | succ f =>
      by_cases hs : maxStable ≤ stable
      · have hs3 : 3 ≤ stable := hs
        rw [show (scrollGo (f + 1) prev stable (c :: rest)).stable = stable from by
          simp [scrollGo, hs]]
        exact iff_of_true hs3 (Or.inl hs3)
      · have hlt : stable < 3 := by
          simp only [maxStable, not_le] at hs
          exact hs
        have hgo : (scrollGo (f + 1) prev stable (c :: rest)).stable =
            (scrollGo f (scrollStep prev stable c).1 (scrollStep prev stable c).2 rest).stable := by
          simp [scrollGo, hs]
        rw [hgo]
        by_cases h1 : c = prev ∧ 0 < c
        · have hstep : scrollStep prev stable c = (prev, stable + 1) := by
            unfold scrollStep
            rw [if_pos h1]
          rw [hstep]
          rw [ih f prev (stable + 1)]
          have hprevpos : 0 < prev := h1.1 ▸ h1.2
          by_cases h2 : stable = 2
          · subst h2
            apply iff_of_true
            · exact Or.inl (by omega)
            · refine Or.inr (Or.inl ⟨hprevpos, by omega, by simp, ?_⟩)
              intro j hj
              have hj0 : j = 0 := by omega
              subst hj0
              exact h1.1
          · constructor
            · rintro (h | ⟨hp, hf, hl, hj⟩ | ⟨k, hk, hw⟩)
              · exact absurd h (by omega)
              · refine Or.inr (Or.inl ⟨hp, by omega, ?_, ?_⟩)
                · simp only [List.length_cons]
                  omega
                · intro j hj2
                  cases j with
                  | zero => exact h1.1
                  | succ j' =>
                    have : rest.getD j' 0 = prev := hj j' (by omega)
                    exact this
              · exact Or.inr (Or.inr ⟨k + 1, by omega, (winAt_cons_succ c rest k).mpr hw⟩)
            · rintro (h | ⟨hp, hf, hl, hj⟩ | ⟨k, hk, hw⟩)
              · exact absurd h (by omega)
              · simp only [List.length_cons] at hl
                refine Or.inr (Or.inl ⟨hp, by omega, by omega, ?_⟩)
                intro j hj2
                have : (c :: rest).getD (j + 1) 0 = prev := hj (j + 1) (by omega)
                exact this
              · cases k with
                | zero =>
                  obtain ⟨hwl, hwp, hw1, hw2, _⟩ := hw
                  simp only [List.length_cons] at hwl
                  refine Or.inr (Or.inl ⟨hprevpos, by omega, by omega, ?_⟩)
                  intro j hj2
                  have hj3 : j < 2 := by omega
                  interval_cases j
                  · rw [← h1.1]
                    exact hw1
                  · rw [← h1.1]
                    exact hw2
                | succ k' =>
                  exact Or.inr (Or.inr ⟨k', by omega, (winAt_cons_succ c rest k').mp hw⟩)
        · by_cases h2 : c = prev
          · have hc0 : c = 0 := by
              rcases Nat.eq_zero_or_pos c with h | h
              · exact h
              · exact absurd ⟨h2, h⟩ h1
            have hp0 : prev = 0 := by omega
            have hstep : scrollStep prev stable c = (prev, stable) := by
              unfold scrollStep
              rw [if_neg h1, if_neg (show ¬c ≠ prev from fun h => h h2)]
            rw [hstep]
            rw [ih f prev stable]
            constructor
            · rintro (h | ⟨hp, _, _, _⟩ | ⟨k, hk, hw⟩)
              · exact Or.inl h
              · exact absurd hp (by omega)
              · exact Or.inr (Or.inr ⟨k + 1, by omega, (winAt_cons_succ c rest k).mpr hw⟩)
            · rintro (h | ⟨hp, _, _, _⟩ | ⟨k, hk, hw⟩)
              · exact Or.inl h
              · exact absurd hp (by omega)
              · cases k with
                | zero =>
                  have : (0 : Nat) < c := hw.2.1
                  omega
                | succ k' =>
                  exact Or.inr (Or.inr ⟨k', by omega, (winAt_cons_succ c rest k').mp hw⟩)
          · have hstep : scrollStep prev stable c = (c, 0) := by
              unfold scrollStep
              rw [if_neg h1, if_pos h2]
            rw [hstep]
            rw [ih f c 0]
            constructor
            · rintro (h | ⟨hp, hf, hl, hj⟩ | ⟨k, hk, hw⟩)
              · exact absurd h (by omega)
              · refine Or.inr (Or.inr ⟨0, by omega, ?_, hp, ?_, ?_, ?_⟩)
                · simp only [List.length_cons]
                  omega
                · exact hj 0 (by omega)
                · exact hj 1 (by omega)
                · exact hj 2 (by omega)
              · exact Or.inr (Or.inr ⟨k + 1, by omega, (winAt_cons_succ c rest k).mpr hw⟩)
            · rintro (h | ⟨hp, hf, hl, hj⟩ | ⟨k, hk, hw⟩)
              · exact absurd h (by omega)
              · have : (c :: rest).getD 0 0 = prev := hj 0 (by omega)
                exact absurd this h2
              · cases k with
                | zero =>
                  obtain ⟨hwl, hwp, hw1, hw2, hw3⟩ := hw
                  simp only [List.length_cons] at hwl
                  refine Or.inr (Or.inl ⟨hwp, by omega, by omega, ?_⟩)
                  intro j hj2
                  have hj3 : j < 3 := by omega
                  interval_cases j
                  · exact hw1
                  · exact hw2
                  · exact hw3
                | succ k' =>
                  exact Or.inr (Or.inr ⟨k', by omega, (winAt_cons_succ c rest k').mp hw⟩)

set_option maxRecDepth 4000 in
/-- C5, counterexample.  Feed the loop 147 zero readings followed by three
equal non-zero readings.  The loop consumes all 150 readings (the full cap),
the suffix of length `maxStable = 3` of the readings is constant and
non-zero, yet the loop does *not* declare convergence: the first `5`
differs from `previousCount` (still `0`), so it resets the streak, and only
two increments follow.  A constant suffix of length exactly the stability
threshold is therefore not sufficient for convergence. -/
theorem c5_scroll_suffix_counterexample :
    scrollConverged (List.replicate 147 0 ++ [5, 5, 5]) = false
    ∧ (List.replicate 147 0 ++ [5, 5, 5]).length = maxScrolls
    ∧ (scrollLoopRun (List.replicate 147 0 ++ [5, 5, 5])).iters = maxScrolls
    ∧ List.drop 147 (List.replicate 147 0 ++ [5, 5, 5]) = [5, 5, 5]
    ∧ maxStable = 3 ∧ (5 : Nat) ≠ 0 := by
  refine ⟨by decide, by decide, by decide, by decide, rfl, by decide⟩

/-- C5, amended.  (1) The loop always terminates within the iteration cap,
consuming at most `maxScrolls` readings (and at most all supplied
readings).  (2) It declares convergence iff the readings contain
`maxStable + 1 = 4` consecutive equal non-zero values whose last position
still falls under the cap — equivalently, iff a suffix of length
`maxStable + 1` (not `maxStable`) of the consumed readings is constant and
non-zero; the extra reading is needed because `previousCount` starts at 0,
so the first reading of a plateau only resets the comparison value.
(3) Per step, the streak is incremented exactly when the count is unchanged
and positive, reset to zero whenever the count changes, and left untouched
when the count is unchanged at zero. -/
theorem c5_scroll_convergence (counts : List Nat) :
    ((scrollLoopRun counts).iters ≤ maxScrolls ∧
      (scrollLoopRun counts).iters ≤ counts.length) ∧
    (scrollConverged counts = true ↔ ∃ k, k + 3 < maxScrolls ∧ winAt counts k) ∧
    (∀ prev stable c,
      (c = prev ∧ 0 < c → scrollStep prev stable c = (prev, stable + 1)) ∧
      (c ≠ prev → scrollStep prev stable c = (c, 0)) ∧
      (c = prev ∧ c = 0 → scrollStep prev stable c = (prev, stable))) := by
  refine ⟨scrollGo_iters_le counts maxScrolls 0 0, ?_, ?_⟩
  · unfold scrollConverged scrollLoopRun
    rw [decide_eq_true_eq]
    have h := scrollGo_conv_iff counts maxScrolls 0 0
    constructor
    · intro hc
      rcases h.mp hc with h3 | ⟨hp, _⟩ | hwin
      · omega
      · omega
      · exact hwin
    · intro hwin
      exact h.mpr (Or.inr (Or.inr hwin))
  · intro prev stable c
    refine ⟨?_, ?_, ?_⟩
    · intro h
      unfold scrollStep
      rw [if_pos h]
    · intro h
      unfold scrollStep
      rw [if_neg (fun hc => h hc.1), if_pos h]
    · rintro ⟨h1, h2⟩
      unfold scrollStep
      rw [if_neg (fun hc => by omega), if_neg (fun hc => hc h1)]

/-- C5 witness: four equal positive readings converge (via the amended iff),
and a step with an unchanged positive count increments the streak. -/
theorem c5_scroll_convergence_witness :
    scrollConverged [7, 7, 7, 7] = true ∧ scrollStep 7 1 7 = (7, 2) := by
  constructor
  · exact ((c5_scroll_convergence [7, 7, 7, 7]).2.1).mpr ⟨0, by decide, by decide⟩
  · exact ((c5_scroll_convergence [7, 7, 7, 7]).2.2 7 1 7).1 ⟨rfl, by decide⟩

/-! ## Checkpoint flush (`saveProgress`, sizes scripts)

`function saveProgress(rows, outputPath) {
  const csvOutput = parse(rows, { fields: Object.keys(rows[0]) });
  fs.writeFileSync(outputPath, csvOutput, 'utf8');
}`
The flush serializes the whole in-memory `rows` array and performs a single
`writeFileSync` straight to the output path.  File-system effects are
modelled as an explicit operation trace. -/

/-- A file-system operation performed by a flush. -/
inductive FsOp where
  | write (path : String) (content : String)
  | rename (src : String) (dst : String)
deriving DecidableEq

/-- A CSV row: ordered field/value pairs (a JS object's own-key order). -/
abbrev Row := List (String × String)

/-- json2csv quotes every field with double quotes by default. -/
def quoteField (s : String) : String := "\"" ++ s ++ "\""

/-- Value of field `f` in a row (missing keys serialize as empty). -/
def lookupField (r : Row) (f : String) : String :=
  match r.find? (fun p => p.1 = f) with
  | some p => p.2
  | none => ""

/-- Models the json2csv call `parse(rows, { fields: Object.keys(rows[0]) })`:
a header line from the first row's keys, then one line per row holding that
row's values for exactly those fields, double-quoted and comma-joined. -/
def csvOutput (rows : List Row) : String :=
  jsJoin "\n" (jsJoin "," (((rows.headD []).map Prod.fst).map quoteField) ::
    rows.map fun r =>
      jsJoin "," (((rows.headD []).map Prod.fst).map fun f => quoteField (lookupField r f)))

/-- The file-system trace of `saveProgress(rows, outputPath)`: one direct
write of the full serialized record set to the output path itself. -/
def saveProgressOps (rows : List Row) (outputPath : String) : List FsOp :=
  [FsOp.write outputPath (csvOutput rows)]

/-- Modelled from the spec: the "write-new-then-replace" flush discipline
the spec's durability invariant prescribes — write the snapshot to a fresh
temporary path, then rename the temporary file over the final path.  No
such code exists in the repository; this spec-side definition exists only
to compare the actual flush trace against it. -/
def writeNewThenReplace (ops : List FsOp) (finalPath : String) : Prop :=
  ∃ tmp content, tmp ≠ finalPath ∧
    ops = [FsOp.write tmp content, FsOp.rename tmp finalPath]

/-- `fs.writeFileSync` truncates the target and writes the new content from
the start; if the process dies after `k` characters the file holds exactly
the first `k` characters of the new content (the old content is gone). -/
def interruptedWriteDisk (newContent : String) (k : Nat) : String :=
  (newContent.toList.take k).asString

/-- C6, counterexample: the actual flush trace for a concrete record set is
a single in-place write to the output path and is not of the
write-new-then-replace shape the claim describes. -/
theorem c6_flush_counterexample :
    ¬ writeNewThenReplace
        (saveProgressOps [[("Product ID", "E1"), ("Available Sizes", "S")]]
          "product-ids/uniqlo-with-sizes.csv")
        "product-ids/uniqlo-with-sizes.csv" := by
  rintro ⟨tmp, content, hne, heq⟩
  simp [saveProgressOps] at heq

/-- C6, amended: a flush issues exactly one write, of the complete
serialized record set, directly to the output path (so an *uninterrupted*
flush does leave a complete snapshot on disk); because there is no
write-new-then-replace step, an interruption mid-write can leave the file
holding neither the previous good content nor the new snapshot (e.g. the
empty truncation at `k = 0`). -/
theorem c6_flush_in_place (rows : List Row) (outputPath oldDisk : String)
    (hold : oldDisk ≠ "") (hnew : csvOutput rows ≠ "") :
    saveProgressOps rows outputPath = [FsOp.write outputPath (csvOutput rows)] ∧
    ∃ k, interruptedWriteDisk (csvOutput rows) k ≠ oldDisk ∧
      interruptedWriteDisk (csvOutput rows) k ≠ csvOutput rows := by
  refine ⟨rfl, 0, ?_, ?_⟩
  · show ("" : String) ≠ oldDisk
    exact fun h => hold h.symm
  · show ("" : String) ≠ csvOutput rows
    exact fun h => hnew h.symm

/-- C6 witness: the amended theorem applied to a one-row record set with
previous on-disk content `"old"`. -/
theorem c6_flush_in_place_witness :
    saveProgressOps [[("A", "1")]] "out.csv" =
      [FsOp.write "out.csv" (csvOutput [[("A", "1")]])] ∧
    ∃ k, interruptedWriteDisk (csvOutput [[("A", "1")]]) k ≠ "old" ∧
      interruptedWriteDisk (csvOutput [[("A", "1")]]) k ≠ csvOutput [[("A", "1")]] :=
  c6_flush_in_place [[("A", "1")]] "out.csv" "old" (by decide) (by decide)

/-! ## VariantExtractor (`readColorAndSizes`, NOTES.md sizes script lines 80–141)

The live page is modelled as a settled DOM snapshot: the trimmed texts of
the `[data-testid="ITOTypography"]` elements, `window.location.pathname`,
and the size-chip widget.  `waitForFunction`/`waitForSelector` on a settled
DOM succeed within their timeout iff the awaited predicate already holds. -/

/-- JavaScript `String.prototype.trim` on character lists (kernel-reducible
replacement for `String.trim`). -/
def trimList (l : List Char) : List Char :=
  ((l.dropWhile Char.isWhitespace).reverse.dropWhile Char.isWhitespace).reverse

/-- JavaScript `String.prototype.trim`. -/
def strTrim (s : String) : String := (trimList s.toList).asString

/-- JavaScript `String.prototype.startsWith`. -/
def strStartsWith (s p : String) : Bool := p.toList.isPrefixOf s.toList

/-- JavaScript `String.prototype.toUpperCase` (per-character upper-casing). -/
def strToUpper (s : String) : String := (s.toList.map Char.toUpper).asString

/-- JavaScript `String.prototype.includes` on character lists. -/
def listContainsSub (needle : List Char) : List Char → Bool
  | [] => needle.isEmpty
  | c :: t => needle.isPrefixOf (c :: t) || listContainsSub needle t

/-- JavaScript `String.prototype.includes`. -/
def strIncludes (s sub : String) : Bool :=
  listContainsSub sub.toList s.toList

/-- The regex `^<label>\s+(\d+)\s+(.+)$` from `readColorAndSizes`, applied
to the (already trimmed) indicator text: the literal label, one-or-more
whitespace, the captured digits, one-or-more whitespace, and the captured
non-empty remainder.  On trimmed, newline-free text this direct parse
coincides with the regex (the greedy `\d+` cannot backtrack usefully:
shortening the digit run only exposes another digit where `\s` is
required). -/
def parseColorText (label text : String) : Option (String × String) :=
  if label.toList.isPrefixOf text.toList then
    let r0 := text.toList.drop label.toList.length
    let ws1 := r0.takeWhile Char.isWhitespace
    let r1 := r0.drop ws1.length
    let ds := r1.takeWhile Char.isDigit
    let r2 := r1.drop ds.length
    let ws2 := r2.takeWhile Char.isWhitespace
    let name := r2.drop ws2.length
    if ws1.isEmpty || ds.isEmpty || ws2.isEmpty || name.isEmpty then none
    else some (ds.asString, name.asString)
  else none

/-- JavaScript `\w`. -/
def isWordChar (c : Char) : Bool := c.isAlphanum || c = '_'

/-- One attempt of the regex `products\/[^/]+\/(\w+)` at the current
position: the literal `products/`, one-or-more non-slash characters, a
slash, then the captured word characters.  (`[^/]+` excludes the slash, so
its greedy run admits exactly one split.) -/
def pathSegMatchAt (l : List Char) : Option (List Char) :=
  if ("products/".toList).isPrefixOf l then
    let r := l.drop 9
    let seg := r.takeWhile (fun c => c ≠ '/')
    if seg.isEmpty then none
    else
      match r.drop seg.length with
      | '/' :: r2 =>
        let w := r2.takeWhile isWordChar
        if w.isEmpty then none else some w
      | _ => none
  else none

/-- Leftmost match of `products\/[^/]+\/(\w+)`: scan start positions left
to right. -/
def findPathSeg : List Char → Option (List Char)
  | [] => none
  | c :: t =>
    match pathSegMatchAt (c :: t) with
    | some w => some w
    | none => findPathSeg t

/-- `pathname.match(/products\/[^/]+\/(\w+)/)`: the first captured word
segment, or the fallback `'00'` when the pattern does not occur. -/
def pathPartOf (pathname : String) : String :=
  match findPathSeg pathname.toList with
  | some w => w.asString
  | none => "00"

/-- One `.size-chip-wrapper`: whether it contains a `.strike` marker, and
its button's inner text if a button is present. -/
structure SizeWrapper where
  strike : Bool
  button : Option String
deriving DecidableEq

/-- A settled product-page DOM. -/
structure PageDom where
  typographyTexts : List String
  pathname : String
  hasSizeChipGroup : Bool
  sizeWrappers : List SizeWrapper
deriving DecidableEq

/-- The color-extraction `page.evaluate` of `readColorAndSizes`: find the
first indicator text starting with the label, parse it against the regex,
and compose `pathPart + code + '-' + NAME`. -/
def extractColor (dom : PageDom) (label : String) : Option String :=
  match dom.typographyTexts.find? (fun t => strStartsWith (strTrim t) label) with
  | none => none
  | some t =>
    match parseColorText label (strTrim t) with
    | none => none
    | some (code, name) =>
      some (pathPartOf dom.pathname ++ code ++ "-" ++ strToUpper name)

/-- The size-extraction part: if the `.size-chip-group` widget is present,
the trimmed button texts of the wrappers without a `.strike` marker (empty
or missing button texts are dropped by `.filter(Boolean)`); otherwise the
`waitForSelector` timeout leaves `sizes = []`. -/
def extractSizes (dom : PageDom) : List String :=
  if dom.hasSizeChipGroup then
    (dom.sizeWrappers.filter (fun w => !w.strike)).filterMap fun w =>
      match w.button with
      | some t => if strTrim t = "" then none else some (strTrim t)
      | none => none
  else []

/-- The predicate awaited by the `waitForFunction` of `readColorAndSizes`
when an expected color code is supplied: some indicator text starts with
the label *and contains the code*.  On a settled DOM the wait succeeds
within its timeout iff this holds; `false` means the wait timed out. -/
def colorWaitSatisfied (dom : PageDom) (label code : String) : Bool :=
  dom.typographyTexts.any fun t =>
    strStartsWith (strTrim t) label && strIncludes (strTrim t) code

/-- `readColorAndSizes(page, colorLabel, expectedColorCode)`.  The
`waitForFunction` outcome is swallowed by `try {...} catch {}` and its
value is never used, so on a settled DOM the returned pair is computed from
the current DOM alone, whether or not the wait succeeded;
`colorWaitSatisfied` captures the awaited predicate separately. -/
def readColorAndSizes (dom : PageDom) (label : String)
    (expectedColorCode : Option String) : Option String × List String :=
  (extractColor dom label, extractSizes dom)

/-- `visitAndRead(page, url, colorLabel, productName)` at the level of one
visit's outcome: `none` means the navigation/extraction threw (the catch
returns null); `some (color, sizes)` is the pair `readColorAndSizes`
produced.  The formatted `"color: s1, s2"` string is returned exactly when
the color is non-null and at least one size is in stock; otherwise null. -/
def visitAndRead (outcome : Option (Option String × List String)) : Option String :=
  match outcome with
  | none => none
  | some (color, sizes) =>
    match color with
    | some c => if sizes.isEmpty then none else some (c ++ ": " ++ jsJoin ", " sizes)
    | none => none

/-- The settled DOM after navigating to the `colorDisplayCode=69` address
of a product whose page still shows the previous, stale server-rendered
color `09 BLACK` (the situation the wait defends against), with one
in-stock size chip. -/
def stalePage : PageDom :=
  { typographyTexts := ["Farbe: 09 BLACK"]
    pathname := "/de/de/products/E449034-000/00"
    hasSizeChipGroup := true
    sizeWrappers := [{ strike := false, button := some "S" }] }

/-- C7, counterexample: on `stalePage` the awaited indicator text for code
`"69"` never appears (the wait times out), yet the extraction does *not*
proceed with a null color — it reads the stale indicator and returns the
non-null color `"0009-BLACK"`, and `visitAndRead` then attributes the
in-stock size `"S"` to that stale color. -/
theorem c7_timeout_counterexample :
    colorWaitSatisfied stalePage "Farbe:" "69" = false ∧
    readColorAndSizes stalePage "Farbe:" (some "69") = (some "0009-BLACK", ["S"]) ∧
    visitAndRead (some (readColorAndSizes stalePage "Farbe:" (some "69"))) =
      some "0009-BLACK: S" := by
  refine ⟨by decide, by decide, by decide⟩

/-- C7, amended: the wait's failure is indeed swallowed (no error is
raised), but the extraction then proceeds on the *current* DOM: the result
does not depend on the expected code or the wait's outcome, so a stale
label-matching indicator yields its stale non-null color with sizes
attributed to it; the caller sees a null color only when no indicator text
matches the label (or none parses). -/
theorem c7_timeout_reads_current_dom (dom : PageDom) (label : String)
    (c1 c2 : Option String) :
    readColorAndSizes dom label c1 = readColorAndSizes dom label c2 ∧
    ((∀ t ∈ dom.typographyTexts, ¬ (strStartsWith (strTrim t) label = true)) →
      (readColorAndSizes dom label c1).1 = none) := by
  refine ⟨rfl, ?_⟩
  intro h
  have hfind : dom.typographyTexts.find? (fun t => strStartsWith (strTrim t) label) = none :=
    List.find?_eq_none.mpr (fun t ht => by simpa using h t ht)
  show extractColor dom label = none
  unfold extractColor
  rw [hfind]

/-- C7 witness: the amended theorem applied to a DOM with no indicator
texts. -/
theorem c7_timeout_reads_current_dom_witness :
    readColorAndSizes ⟨[], "", false, []⟩ "Farbe:" (some "69") =
      readColorAndSizes ⟨[], "", false, []⟩ "Farbe:" none ∧
    (readColorAndSizes ⟨[], "", false, []⟩ "Farbe:" (some "69")).1 = none := by
  have h := c7_timeout_reads_current_dom ⟨[], "", false, []⟩ "Farbe:" (some "69") none
  exact ⟨h.1, h.2 (by intro t ht; exact absurd ht (List.not_mem_nil t))⟩

/-! ## VariantDiscoverer (`discoverColorUrls`, NOTES.md sizes script lines 144–165)

`const productMatch = window.location.pathname.match(/\/products\/([^/]+)/);
 const numericId strips a leading E and then a trailing dash-digits suffix;
 const basePath = window.location.pathname.replace(/\?.*$/, '');
 const chipPattern = new RegExp(`chip/goods_(\d{2})_${numericId}`);
 ... [...codes].map(code => new URL(`${basePath}?colorDisplayCode=${code}`,
   window.location.origin).href)`. -/

/-- One attempt of `\/products\/([^/]+)` at the current position: the
literal `/products/` followed by the captured one-or-more non-slash run. -/
def productIdMatchAt (l : List Char) : Option (List Char) :=
  if ("/products/".toList).isPrefixOf l then
    let seg := (l.drop 10).takeWhile (fun c => c ≠ '/')
    if seg.isEmpty then none else some seg
  else none

/-- Leftmost match of `\/products\/([^/]+)`. -/
def findProductId : List Char → Option (List Char)
  | [] => none
  | c :: t =>
    match productIdMatchAt (c :: t) with
    | some seg => some seg
    | none => findProductId t

/-- The captured product id of `pathname.match(/\/products\/([^/]+)/)`. -/
def productIdOf (pathname : String) : Option String :=
  (findProductId pathname.toList).map List.asString

/-- `fullId.replace(/^E/, '')`: strip one leading `E` when present. -/
def stripLeadingE : List Char → List Char
  | 'E' :: rest => rest
  | l => l

/-- The `replace` of the trailing `-\d+$` suffix with the empty string:
cut at the leftmost `-` that is followed only by one-or-more digits up to
the end of the string. -/
def stripDashDigits : List Char → List Char
  | [] => []
  | c :: rest =>
    if c = '-' ∧ ¬rest.isEmpty ∧ rest.all Char.isDigit then []
    else c :: stripDashDigits rest

/-- `pathname.replace(/\?.*$/, '')`: everything before the first `?`. -/
def dropFromQuestion (l : List Char) : List Char :=
  l.takeWhile (fun c => c ≠ '?')

/-- One attempt of the chip pattern `chip/goods_(\d{2})_<numericId>` at the
current position: the literal `chip/goods_`, two captured digits, `_`, then
the numeric id (anything may follow). -/
def chipMatchAt (nid : List Char) (l : List Char) : Option (List Char) :=
  if ("chip/goods_".toList).isPrefixOf l then
    match l.drop 11 with
    | d1 :: d2 :: '_' :: r2 =>
      if d1.isDigit ∧ d2.isDigit ∧ nid.isPrefixOf r2 then some [d1, d2] else none
    | _ => none
  else none

/-- Leftmost match of the chip pattern in an image `src`. -/
def findChipCode (nid : List Char) : List Char → Option (List Char)
  | [] => none
  | c :: t =>
    match chipMatchAt nid (c :: t) with
    | some code => some code
    | none => findChipCode nid t

/-- The rendered product page as `discoverColorUrls` sees it:
`window.location` and the `src` attributes of all `img` elements. -/
structure ProductPage where
  pathname : String
  origin : String
  imgSrcs : List String
deriving DecidableEq

/-- `discoverColorUrls(page)`: extract the two-digit color codes whose chip
image names carry this product's numeric id, dedupe them in first-seen
order (the JS `Set`), and synthesize one address per code from the page's
own base path (`new URL(basePath + '?colorDisplayCode=' + code, origin)`,
which for the absolute `pathname` is origin ++ basePath ++ query). -/
def discoverColorUrls (p : ProductPage) : List String :=
  match productIdOf p.pathname with
  | none => []
  | some fullId =>
    let numericId := stripDashDigits (stripLeadingE fullId.toList)
    let basePath := (dropFromQuestion p.pathname.toList).asString
    let codes := insertOrderDedup
      (p.imgSrcs.filterMap fun src => (findChipCode numericId src.toList).map List.asString)
    codes.map fun code => p.origin ++ basePath ++ "?colorDisplayCode=" ++ code

/-- The merge in `processProduct`:
`const allUrls = [...new Set([...csvUrls, ...discoveredUrls])]`. -/
def mergedUrls (csvUrls discoveredUrls : List String) : List String :=
  insertOrderDedup (csvUrls ++ discoveredUrls)

/-- Scan for the first `colorDisplayCode=` occurrence and return the value
up to the next `&`. -/
def codeParamScan : List Char → Option (List Char)
  | [] => none
  | c :: t =>
    if ("colorDisplayCode=".toList).isPrefixOf (c :: t) then
      some (((c :: t).drop 17).takeWhile (fun ch => ch ≠ '&'))
    else codeParamScan t

/-- Observation helper: the `colorDisplayCode` query parameter of an
address (the spec's per-color key), read as the text between the first
`colorDisplayCode=` and the following `&`. -/
def colorCodeOf (u : String) : Option String :=
  (codeParamScan u.toList).map List.asString

/-! ### C2: merge dedup lemmas -/

theorem mem_dedupFoldAux (l : List String) :
    ∀ (acc : List String) (u : String),
      u ∈ l.foldl (fun a x => if x ∈ a then a else a ++ [x]) acc ↔ u ∈ acc ∨ u ∈ l := by
  induction l with
  | nil =>
    intro acc u
    simp
  | cons x t ih =>
    intro acc u
    simp only [List.foldl_cons]
    rw [ih]
    by_cases hx : x ∈ acc
    · rw [if_pos hx]
      constructor
      · rintro (h | h)
        · exact Or.inl h
        · exact Or.inr (List.mem_cons_of_mem x h)
      · rintro (h | h)
        · exact Or.inl h
        · rcases List.mem_cons.mp h with h2 | h2
          · subst h2
            exact Or.inl hx
          · exact Or.inr h2
    · rw [if_neg hx]
      constructor
      · rintro (h | h)
        · rcases List.mem_append.mp h with h2 | h2
          · exact Or.inl h2
          · exact Or.inr (by simpa using Or.inl (List.mem_singleton.mp h2))
        · exact Or.inr (List.mem_cons_of_mem x h)
      · rintro (h | h)
        · exact Or.inl (List.mem_append.mpr (Or.inl h))
        · rcases List.mem_cons.mp h with h2 | h2
          · exact Or.inl (List.mem_append.mpr (Or.inr (by simp [h2])))
          · exact Or.inr h2

theorem nodup_dedupFoldAux (l : List String) :
    ∀ acc : List String, acc.Nodup →
      (l.foldl (fun a x => if x ∈ a then a else a ++ [x]) acc).Nodup := by
  induction l with
  | nil =>
    intro acc h
    simpa using h
  | cons x t ih =>
    intro acc h
    simp only [List.foldl_cons]
    by_cases hx : x ∈ acc
    · rw [if_pos hx]
      exact ih acc h
    · rw [if_neg hx]
      refine ih _ ?_
      simp [List.nodup_append, h, hx]

theorem mem_insertOrderDedup (l : List String) (u : String) :
    u ∈ insertOrderDedup l ↔ u ∈ l := by
  unfold insertOrderDedup
  rw [mem_dedupFoldAux]
  simp

theorem nodup_insertOrderDedup (l : List String) : (insertOrderDedup l).Nodup :=
  nodup_dedupFoldAux l [] List.nodup_nil

/-- The rendered product page for a product whose listing-derived address
carries the path segment `E449034-000` while the product page itself
canonicalizes to `E449034-001` — both refer to the same product, and the
chip image carries color code `09` anchored by the numeric id `449034`. -/
def driftedPage : ProductPage :=
  { pathname := "/de/de/products/E449034-001/00"
    origin := "https://www.uniqlo.com"
    imgSrcs := ["https://image.uniqlo.com/UQ/ST3/eu/imagesgoods/chip/goods_09_449034.jpg"] }

set_option maxRecDepth 8000 in
/-- C2, counterexample: color code `09` is known from the listing *and*
discovered in the page DOM, yet the merged address set keeps *two* entries
for it — the listing address and the synthesized address differ as raw
strings (different path segment), and the `new Set` merge compares raw
strings, not a normalized per-color key. -/
theorem c2_merge_counterexample :
    discoverColorUrls driftedPage =
      ["https://www.uniqlo.com/de/de/products/E449034-001/00?colorDisplayCode=09"] ∧
    mergedUrls ["https://www.uniqlo.com/de/de/products/E449034-000/00?colorDisplayCode=09"]
        (discoverColorUrls driftedPage) =
      ["https://www.uniqlo.com/de/de/products/E449034-000/00?colorDisplayCode=09",
       "https://www.uniqlo.com/de/de/products/E449034-001/00?colorDisplayCode=09"] ∧
    colorCodeOf
        "https://www.uniqlo.com/de/de/products/E449034-000/00?colorDisplayCode=09" =
      some "09" ∧
    colorCodeOf
        "https://www.uniqlo.com/de/de/products/E449034-001/00?colorDisplayCode=09" =
      some "09" ∧
    ("https://www.uniqlo.com/de/de/products/E449034-000/00?colorDisplayCode=09" : String) ≠
      "https://www.uniqlo.com/de/de/products/E449034-001/00?colorDisplayCode=09" := by
  refine ⟨by decide, by decide, by decide, by decide, by decide⟩

/-- C2, amended: the merge dedups addresses by raw string equality of the
URLs (the JS `Set`), not by a normalized per-color key: the merged set has
no duplicate strings, contains exactly the union of the two sources, and
merging the same address *string* from both sources is idempotent.  The
same color code re-derived as two different strings survives as two
entries; duplicate colors are collapsed only later, at the variant level,
by the walk's `seenColors` set. -/
theorem c2_merge_string_dedup (csvUrls discovered : List String) :
    (mergedUrls csvUrls discovered).Nodup ∧
    (∀ u, u ∈ mergedUrls csvUrls discovered ↔ u ∈ csvUrls ∨ u ∈ discovered) ∧
    (∀ u : String, mergedUrls [u] [u] = [u]) := by
  refine ⟨nodup_insertOrderDedup _, ?_, ?_⟩
  · intro u
    unfold mergedUrls
    rw [mem_insertOrderDedup, List.mem_append]
  · intro u
    unfold mergedUrls insertOrderDedup
    simp

/-! ## ProductWorker (`processProduct`, NOTES.md sizes script lines 217–289)

One tab per product: visit the first CSV address, seed `seenColors` and
`variants` from its result, discover the page's color addresses, merge and
drop the already-visited first address, then walk the remaining addresses
with the duplicate-streak early stop, and finally join the recorded
variants (or fall back to `'Unavailable'`). -/

/-- JavaScript `String.prototype.split` on a single-character separator. -/
def splitChar (sep : Char) : List Char → List (List Char)
  | [] => [[]]
  | c :: t =>
    let r := splitChar sep t
    if c = sep then [] :: r
    else (c :: r.headD []) :: r.tail

/-- `variant.split(':')[0]` — the key stored in `seenColors`. -/
def colorKeyOf (v : String) : String :=
  ((splitChar ':' v.toList).headD []).asString

/-- `row['Color Variant URLs'] ? row[...].split('|').map(u => u.trim())
.filter(Boolean) : []` — a missing field is the empty string, which is
falsy. -/
def csvUrlsOf (field : String) : List String :=
  if field = "" then []
  else ((splitChar '|' field.toList).map fun l => (trimList l).asString).filter
    fun str => str ≠ ""

/-- The per-product walk state: the `seenColors` set (list of insertions,
newest first), the ordered `variants` output, the `dupeStreak` counter,
and the number of `visitAndRead` navigations performed. -/
structure WalkState where
  seen : List String
  variants : List String
  dupeStreak : Nat
  visits : Nat
deriving DecidableEq

/-- The body of the remaining-addresses loop for one address: navigate
(counted in `visits`), then — only when the result is non-null — either
count a duplicate or record a newly seen color. -/
def walkStep (s : WalkState) (res : Option String) : WalkState :=
  match res with
  | none => { s with visits := s.visits + 1 }
  | some v =>
    if colorKeyOf v ∈ s.seen then
      { s with dupeStreak := s.dupeStreak + 1, visits := s.visits + 1 }
    else
      { seen := colorKeyOf v :: s.seen, variants := s.variants ++ [v],
        dupeStreak := 0, visits := s.visits + 1 }

/-- `for (const url of remaining) { if (dupeStreak >= 2) break; ... }` —
the early-stop check runs at the top of each iteration. -/
def walkRemaining (s : WalkState) : List (Option String) → WalkState
  | [] => s
  | r :: rs => if 2 ≤ s.dupeStreak then s else walkRemaining (walkStep s r) rs

theorem walkStep_none (s : WalkState) :
    walkStep s none = { s with visits := s.visits + 1 } := rfl

theorem walkStep_some_mem (s : WalkState) (v : String) (h : colorKeyOf v ∈ s.seen) :
    walkStep s (some v) =
      { s with dupeStreak := s.dupeStreak + 1, visits := s.visits + 1 } := by
  simp [walkStep, h]

theorem walkStep_some_new (s : WalkState) (v : String) (h : colorKeyOf v ∉ s.seen) :
    walkStep s (some v) =
      ⟨colorKeyOf v :: s.seen, s.variants ++ [v], 0, s.visits + 1⟩ := by
  simp [walkStep, h]

/-- The state after the first visit: seed `seenColors` and `variants` from
a non-null first result; `dupeStreak` starts at 0 either way; one
navigation was performed. -/
def initState (firstRes : Option String) : WalkState :=
  match firstRes with
  | some v => { seen := [colorKeyOf v], variants := [v], dupeStreak := 0, visits := 1 }
  | none => { seen := [], variants := [], dupeStreak := 0, visits := 1 }

/-- The sequence of addresses the worker would visit (ignoring the early
stop): the first CSV address, then `remaining = allUrls.filter(u =>
!visitedUrls.has(u))` in merge order, with `visitedUrls = {csvUrls[0]}`. -/
def visitListOf (csvUrls : List String) (page : ProductPage) : List String :=
  match csvUrls with
  | [] => []
  | first :: _ =>
    first :: (mergedUrls csvUrls (discoverColorUrls page)).filter fun u => u ≠ first

/-- The whole per-product walk.  `extract` is the extraction environment:
for every address, the `readColorAndSizes` pair its navigation would
produce, or `none` when the navigation would throw (caught as a null
result). -/
def productRun (csvUrls : List String)
    (extract : String → Option (Option String × List String)) (page : ProductPage) :
    WalkState :=
  match csvUrls with
  | [] => { seen := [], variants := [], dupeStreak := 0, visits := 0 }
  | first :: _ =>
    walkRemaining (initState (visitAndRead (extract first)))
      (((mergedUrls csvUrls (discoverColorUrls page)).filter fun u => u ≠ first).map
        fun u => visitAndRead (extract u))

/-- `row['Available Sizes'] = variants.length > 0 ? variants.join(' | ') :
'Unavailable'`. -/
def availableSizesOf (s : WalkState) : String :=
  if s.variants.isEmpty then "Unavailable" else jsJoin " | " s.variants

/-- Observable outcome of `processProduct(row)`: the `Available Sizes`
value written to the row, and the number of navigations performed.  An
empty CSV-URL list returns early with `'Unavailable'` before any page is
opened. -/
def processProduct (csvUrls : List String)
    (extract : String → Option (Option String × List String)) (page : ProductPage) :
    String × Nat :=
  match csvUrls with
  | [] => ("Unavailable", 0)
  | _ :: _ =>
    (availableSizesOf (productRun csvUrls extract page),
     (productRun csvUrls extract page).visits)

/-- C9: a product whose parsed variant-address list is empty gets
`Available Sizes = 'Unavailable'` and performs zero navigations — the
worker returns before a page is ever opened. -/
theorem c9_empty_product_unavailable (field : String)
    (extract : String → Option (Option String × List String)) (page : ProductPage)
    (h : csvUrlsOf field = []) :
    processProduct (csvUrlsOf field) extract page = ("Unavailable", 0) := by
  rw [h]
  rfl

/-- C9 witness: a row with an empty `Color Variant URLs` field. -/
theorem c9_empty_product_unavailable_witness :
    processProduct (csvUrlsOf "") (fun _ => none) ⟨"", "", []⟩ = ("Unavailable", 0) :=
  c9_empty_product_unavailable "" (fun _ => none) ⟨"", "", []⟩ rfl

/-! ### C3: duplicate-streak early stop -/

theorem visitAndRead_stocked (c : String) (sizes : List String) (hs : sizes ≠ []) :
    visitAndRead (some (some c, sizes)) = some (c ++ ": " ++ jsJoin ", " sizes) := by
  simp only [visitAndRead]
  rw [if_neg (by simpa using hs)]

theorem walk_three_dupes (v : String) (r : Option String) :
    (walkRemaining ⟨[colorKeyOf v], [v], 0, 1⟩ [some v, some v, r]).visits = 3 := by
  have hmem : colorKeyOf v ∈ [colorKeyOf v] := List.mem_singleton.mpr rfl
  have h1 : walkStep ⟨[colorKeyOf v], [v], 0, 1⟩ (some v) = ⟨[colorKeyOf v], [v], 1, 2⟩ := by
    simp [walkStep]
  have h2 : walkStep ⟨[colorKeyOf v], [v], 1, 2⟩ (some v) = ⟨[colorKeyOf v], [v], 2, 3⟩ := by
    simp [walkStep]
  simp only [walkRemaining, h1, h2]
  norm_num

/-- C3: (1) whenever the duplicate-streak counter has reached 2, the walk
abandons every remaining unvisited address — the loop returns the state
unchanged, performing no further navigation; (2) a null extraction result
neither increments nor resets the streak (and changes nothing except the
navigation count); (3) the three-repeats scenario: a product with four
variant addresses, all of which resolve to the same color `A` with in-stock
sizes, performs exactly 3 navigations: the first visit seeds `A`, the next
two visits are duplicates (streak 1, then 2), and the fourth address is
never visited. -/
theorem c3_duplicate_streak_early_stop :
    (∀ (s : WalkState) (rs : List (Option String)),
      2 ≤ s.dupeStreak → walkRemaining s rs = s) ∧
    (∀ s : WalkState, walkStep s none = { s with visits := s.visits + 1 }) ∧
    (∀ (A : String) (sizes : List String), sizes ≠ [] →
      (processProduct ["u0", "u1", "u2", "u3"] (fun _ => some (some A, sizes))
        ⟨"", "", []⟩).2 = 3) := by
  refine ⟨?_, fun s => rfl, ?_⟩
  · intro s rs h
    cases rs with
    | nil => rfl
    | cons r rs =>
      unfold walkRemaining
      rw [if_pos h]
  · intro A sizes hs
    have hrem : ((mergedUrls ["u0", "u1", "u2", "u3"]
        (discoverColorUrls ⟨"", "", []⟩)).filter fun u => u ≠ "u0") =
        ["u1", "u2", "u3"] := by decide
    have hvr := visitAndRead_stocked A sizes hs
    show (walkRemaining (initState (visitAndRead (some (some A, sizes))))
      ((((mergedUrls ["u0", "u1", "u2", "u3"] (discoverColorUrls ⟨"", "", []⟩)).filter
        fun u => u ≠ "u0")).map fun u => visitAndRead (some (some A, sizes)))).visits = 3
    rw [hrem]
    simp only [List.map_cons, List.map_nil, hvr]
    exact walk_three_dupes (A ++ ": " ++ jsJoin ", " sizes)
      (some (A ++ ": " ++ jsJoin ", " sizes))

/-- C3 witness: concrete instances of all three conjuncts. -/
theorem c3_duplicate_streak_early_stop_witness :
    walkRemaining ⟨["09-BLACK"], ["09-BLACK: S"], 2, 3⟩ [some "69-NAVY: M"] =
      ⟨["09-BLACK"], ["09-BLACK: S"], 2, 3⟩ ∧
    walkStep ⟨["09-BLACK"], ["09-BLACK: S"], 1, 2⟩ none =
      ⟨["09-BLACK"], ["09-BLACK: S"], 1, 3⟩ ∧
    (processProduct ["u0", "u1", "u2", "u3"] (fun _ => some (some "A", ["S"]))
      ⟨"", "", []⟩).2 = 3 := by
  refine ⟨?_, ?_, ?_⟩
  · exact c3_duplicate_streak_early_stop.1 ⟨["09-BLACK"], ["09-BLACK: S"], 2, 3⟩
      [some "69-NAVY: M"] (by decide)
  · exact c3_duplicate_streak_early_stop.2.1 ⟨["09-BLACK"], ["09-BLACK: S"], 1, 2⟩
  · exact c3_duplicate_streak_early_stop.2.2 "A" ["S"] (by decide)

/-! ### C4: the final SizeAvailability value -/

theorem string_data_append (a b : String) : (a ++ b).data = a.data ++ b.data := by
  cases a
  cases b
  rfl

theorem colon_mem_jsJoin (sep v : String) (vs : List String)
    (h : ':' ∈ v.data) : ':' ∈ (jsJoin sep (v :: vs)).data := by
  cases vs with
  | nil => exact h
  | cons w ws =>
    show ':' ∈ (v ++ sep ++ jsJoin sep (w :: ws)).data
    rw [string_data_append, string_data_append]
    exact List.mem_append.mpr (Or.inl (List.mem_append.mpr (Or.inl h)))

theorem visitAndRead_eq_none_iff (o : Option (Option String × List String)) :
    visitAndRead o = none ↔
      ∀ c sizes, o = some (c, sizes) → c = none ∨ sizes = [] := by
  rcases o with _ | ⟨c, sizes⟩
  · simp [visitAndRead]
  · rcases c with _ | cc
    · simp [visitAndRead]
    · by_cases hse : sizes.isEmpty = true
      · simp only [visitAndRead, if_pos hse]
        have : sizes = [] := by simpa using hse
        simp [this]
      · simp only [visitAndRead, if_neg hse]
        have hne : sizes ≠ [] := by simpa using hse
        simp [hne]

theorem visitAndRead_eq_some_iff (o : Option (Option String × List String)) (v : String) :
    visitAndRead o = some v ↔
      ∃ c sizes, o = some (some c, sizes) ∧ sizes ≠ [] ∧
        v = c ++ ": " ++ jsJoin ", " sizes := by
  rcases o with _ | ⟨c, sizes⟩
  · simp [visitAndRead]
  · rcases c with _ | cc
    · simp [visitAndRead]
    · by_cases hse : sizes.isEmpty = true
      · simp only [visitAndRead, if_pos hse]
        have : sizes = [] := by simpa using hse
        simp [this]
      · simp only [visitAndRead, if_neg hse]
        have hne : sizes ≠ [] := by simpa using hse
        constructor
        · intro h
          exact ⟨cc, sizes, rfl, hne, (Option.some.injEq _ _ ▸ h).symm⟩
        · rintro ⟨c2, sizes2, heq, _, hv⟩
          injection heq with h3
          injection h3 with h1 h2
          injection h1 with h1b
          subst h1b
          subst h2
          rw [hv]

theorem walkRemaining_variants_ne_nil (rs : List (Option String)) :
    ∀ s : WalkState, s.variants ≠ [] → (walkRemaining s rs).variants ≠ [] := by
  induction rs with
  | nil => intro s h; exact h
  | cons r rs ih =>
    intro s h
    unfold walkRemaining
    by_cases hd : 2 ≤ s.dupeStreak
    · rw [if_pos hd]
      exact h
    · rw [if_neg hd]
      apply ih
      cases r with
      | none => exact h
      | some v =>
        by_cases hm : colorKeyOf v ∈ s.seen
        · rw [walkStep_some_mem s v hm]
          exact h
        · rw [walkStep_some_new s v hm]
          simp

theorem walkRemaining_empty_iff (rs : List (Option String)) :
    ∀ s : WalkState, s.variants = [] → s.seen = [] → s.dupeStreak = 0 →
      ((walkRemaining s rs).variants = [] ↔ ∀ r ∈ rs, r = none) := by
  induction rs with
  | nil =>
    intro s hv _ _
    simp [walkRemaining, hv]
  | cons r rs ih =>
    intro s hv hs hd
    unfold walkRemaining
    rw [if_neg (by omega)]
    cases r with
    | none =>
      rw [walkStep_none s]
      rw [ih { s with visits := s.visits + 1 } hv hs hd]
      simp
    | some v =>
      have hm : colorKeyOf v ∉ s.seen := by
        rw [hs]
        exact List.not_mem_nil _
      rw [walkStep_some_new s v hm]
      refine iff_of_false (walkRemaining_variants_ne_nil rs _ (by simp)) ?_
      intro h
      simpa using h (some v) (List.mem_cons_self _ _)

theorem walkRemaining_colon (rs : List (Option String)) :
    ∀ s : WalkState, (∀ v ∈ s.variants, ':' ∈ v.data) →
      (∀ r ∈ rs, ∀ v, r = some v → ':' ∈ v.data) →
      ∀ v ∈ (walkRemaining s rs).variants, ':' ∈ v.data := by
  induction rs with
  | nil =>
    intro s h _
    exact h
  | cons r rs ih =>
    intro s h hrs
    have hcur : ∀ v, r = some v → ':' ∈ v.data := hrs r (List.mem_cons_self _ _)
    have hrest : ∀ r2 ∈ rs, ∀ v, r2 = some v → ':' ∈ v.data :=
      fun r2 hr2 => hrs r2 (List.mem_cons_of_mem _ hr2)
    unfold walkRemaining
    by_cases hd : 2 ≤ s.dupeStreak
    · rw [if_pos hd]
      exact h
    · rw [if_neg hd]
      apply ih _ _ hrest
      cases r with
      | none => exact h
      | some v =>
        by_cases hm : colorKeyOf v ∈ s.seen
        · rw [walkStep_some_mem s v hm]
          exact h
        · rw [walkStep_some_new s v hm]
          intro w hw
          rcases List.mem_append.mp hw with hw2 | hw2
          · exact h w hw2
          · rw [List.mem_singleton] at hw2
            subst hw2
            exact hcur w rfl

theorem availableSizes_eq_unavailable_iff (s : WalkState)
    (hcolon : ∀ v ∈ s.variants, ':' ∈ v.data) :
    availableSizesOf s = "Unavailable" ↔ s.variants = [] := by
  unfold availableSizesOf
  by_cases h : s.variants.isEmpty = true
  · rw [if_pos h]
    have : s.variants = [] := by simpa using h
    simp [this]
  · rw [if_neg h]
    have hne : s.variants ≠ [] := by simpa using h
    refine iff_of_false ?_ hne
    rcases hv : s.variants with _ | ⟨v, vs⟩
    · exact absurd hv hne
    · intro hj
      have hcv : ':' ∈ (jsJoin " | " (v :: vs)).data :=
        colon_mem_jsJoin " | " v vs (hcolon v (by rw [hv]; exact List.mem_cons_self _ _))
      rw [hj] at hcv
      exact absurd hcv (by decide)

theorem walkRemaining_keys_nodup (rs : List (Option String)) :
    ∀ s : WalkState, (s.variants.map colorKeyOf).Nodup →
      (∀ k ∈ s.variants.map colorKeyOf, k ∈ s.seen) →
      ((walkRemaining s rs).variants.map colorKeyOf).Nodup := by
  induction rs with
  | nil =>
    intro s h _
    exact h
  | cons r rs ih =>
    intro s h hsub
    unfold walkRemaining
    by_cases hd : 2 ≤ s.dupeStreak
    · rw [if_pos hd]
      exact h
    · rw [if_neg hd]
      cases r with
      | none => exact ih _ h hsub
      | some v =>
        by_cases hm : colorKeyOf v ∈ s.seen
        · rw [walkStep_some_mem s v hm]
          exact ih _ h hsub
        · rw [walkStep_some_new s v hm]
          apply ih
          · show ((s.variants ++ [v]).map colorKeyOf).Nodup
            rw [List.map_append]
            simp only [List.map_cons, List.map_nil]
            rw [List.nodup_append]
            refine ⟨h, List.nodup_singleton _, ?_⟩
            intro k hk hk2
            rw [List.mem_singleton] at hk2
            subst hk2
            exact hm (hsub _ hk)
          · show ∀ k ∈ (s.variants ++ [v]).map colorKeyOf, k ∈ colorKeyOf v :: s.seen
            intro k hk
            rw [List.map_append] at hk
            rcases List.mem_append.mp hk with hk2 | hk2
            · exact List.mem_cons_of_mem _ (hsub k hk2)
            · simp only [List.map_cons, List.map_nil, List.mem_singleton] at hk2
              subst hk2
              exact List.mem_cons_self _ _

theorem visitAndRead_colon (o : Option (Option String × List String)) (v : String)
    (h : visitAndRead o = some v) : ':' ∈ v.data := by
  obtain ⟨c, sizes, _, _, hv⟩ := (visitAndRead_eq_some_iff o v).mp h
  rw [hv, string_data_append]
  refine List.mem_append.mpr (Or.inl ?_)
  rw [string_data_append]
  exact List.mem_append.mpr (Or.inr (by decide))

/-- C4: for every product, (1) the final `Available Sizes` value is
`"Unavailable"` iff no visited address yielded both a non-null color and at
least one in-stock size (quantifying over the full visit sequence is
equivalent to quantifying over the addresses actually visited: an early
stop requires a duplicate streak, which requires a recorded variant, which
already forces the value away from `"Unavailable"`); (2) otherwise it is
the `" | "`-join of the recorded `"color: sizes"` strings in first-seen
(append) order; (3) the recorded variants carry pairwise distinct color
keys — one entry per distinct resolved color. -/
theorem c4_size_availability (csvUrls : List String)
    (extract : String → Option (Option String × List String)) (page : ProductPage) :
    ((processProduct csvUrls extract page).1 = "Unavailable" ↔
      ∀ u ∈ visitListOf csvUrls page, ∀ c sizes,
        extract u = some (c, sizes) → c = none ∨ sizes = []) ∧
    (processProduct csvUrls extract page).1 =
      (if (productRun csvUrls extract page).variants.isEmpty then "Unavailable"
       else jsJoin " | " (productRun csvUrls extract page).variants) ∧
    ((productRun csvUrls extract page).variants.map colorKeyOf).Nodup := by
  cases csvUrls with
  | nil =>
    refine ⟨?_, rfl, ?_⟩
    · simp [processProduct, visitListOf]
    · show (List.map colorKeyOf ([] : List String)).Nodup
      simp
  | cons first rest =>
    have hrunEq : productRun (first :: rest) extract page =
        walkRemaining (initState (visitAndRead (extract first)))
          (((mergedUrls (first :: rest) (discoverColorUrls page)).filter
            fun u => u ≠ first).map fun u => visitAndRead (extract u)) := rfl
    have hprocEq : (processProduct (first :: rest) extract page).1 =
        availableSizesOf (productRun (first :: rest) extract page) := rfl
    have hcol : ∀ v ∈ (productRun (first :: rest) extract page).variants, ':' ∈ v.data := by
      rw [hrunEq]
      apply walkRemaining_colon
      · intro v hv
        cases hfr : visitAndRead (extract first) with
        | none =>
          rw [hfr] at hv
          simp [initState] at hv
        | some w =>
          rw [hfr] at hv
          simp only [initState, List.mem_singleton] at hv
          subst hv
          exact visitAndRead_colon _ _ hfr
      · intro r hr v hrv
        rcases List.mem_map.mp hr with ⟨u, _, hru⟩
        exact visitAndRead_colon (extract u) v (hru.trans hrv)
    have hnodup : ((productRun (first :: rest) extract page).variants.map
        colorKeyOf).Nodup := by
      rw [hrunEq]
      apply walkRemaining_keys_nodup
      · cases hfr : visitAndRead (extract first) with
        | none => simp [initState]
        | some w => simp [initState]
      · cases hfr : visitAndRead (extract first) with
        | none => simp [initState]
        | some w => simp [initState]
    refine ⟨?_, rfl, hnodup⟩
    rw [hprocEq, availableSizes_eq_unavailable_iff _ hcol, hrunEq]
    cases hfr : visitAndRead (extract first) with
    | some w =>
      refine iff_of_false ?_ ?_
      · exact walkRemaining_variants_ne_nil _ _ (by simp [initState])
      · intro hall
        have h1 : visitAndRead (extract first) = none := by
          rw [visitAndRead_eq_none_iff]
          intro c sizes hcs
          exact hall first (by simp [visitListOf]) c sizes hcs
        rw [hfr] at h1
        exact absurd h1 (by simp)
    | none =>
      rw [walkRemaining_empty_iff _ _ rfl rfl rfl]
      constructor
      · intro h u hu c sizes hcs
        simp only [visitListOf] at hu
        rcases List.mem_cons.mp hu with hu1 | hu1
        · subst hu1
          exact (visitAndRead_eq_none_iff (extract u)).mp hfr c sizes hcs
        · have hr : visitAndRead (extract u) = none :=
            h (visitAndRead (extract u)) (List.mem_map.mpr ⟨u, hu1, rfl⟩)
          exact (visitAndRead_eq_none_iff (extract u)).mp hr c sizes hcs
      · intro h r hr
        rcases List.mem_map.mp hr with ⟨u, hu, hru⟩
        rw [← hru]
        rw [visitAndRead_eq_none_iff]
        intro c sizes hcs
        refine h u ?_ c sizes hcs
        simp only [visitListOf]
        exact List.mem_cons_of_mem _ hu

/-- C4 witness: a product whose only address fails to navigate ends
`"Unavailable"` — via the iff of the main theorem. -/
theorem c4_size_availability_witness :
    (processProduct ["u0"] (fun _ => none) ⟨"", "", []⟩).1 = "Unavailable" := by
  have h := (c4_size_availability ["u0"] (fun _ => none) ⟨"", "", []⟩).1
  refine h.mpr ?_
  intro u hu c sizes hcs
  exact absurd hcs (by simp)

/-! ### C10: zero-stock colors never enter the seen set -/

theorem walkRemaining_seen_from (rs : List (Option String)) :
    ∀ (s : WalkState) (col : String), col ∈ (walkRemaining s rs).seen →
      col ∈ s.seen ∨ ∃ v, some v ∈ rs ∧ col = colorKeyOf v := by
  induction rs with
  | nil =>
    intro s col h
    exact Or.inl h
  | cons r rs ih =>
    intro s col h
    unfold walkRemaining at h
    by_cases hd : 2 ≤ s.dupeStreak
    · rw [if_pos hd] at h
      exact Or.inl h
    · rw [if_neg hd] at h
      rcases ih _ col h with h2 | ⟨v, hv, hcol⟩
      · cases r with
        | none => exact Or.inl h2
        | some v =>
          by_cases hm : colorKeyOf v ∈ s.seen
          · rw [walkStep_some_mem s v hm] at h2
            exact Or.inl h2
          · rw [walkStep_some_new s v hm] at h2
            rcases List.mem_cons.mp h2 with h3 | h3
            · exact Or.inr ⟨v, List.mem_cons_self _ _, h3⟩
            · exact Or.inl h3
      · exact Or.inr ⟨v, List.mem_cons_of_mem _ hv, hcol⟩

/-- C10: (1) a visit that yields a non-null color with zero in-stock sizes
returns a null result; (2) a null result changes nothing but the
navigation count — it is never added to `seenColors`, never appended to the
output, and leaves the duplicate streak untouched; (3) every color in the
final seen set was extracted together with at least one in-stock size at
some visited address; (4) a later visit of a color that is not in the seen
set (e.g. because its earlier sightings were zero-stock) and now has stock
is recorded as new — streak reset to 0, variant appended — not counted as a
duplicate. -/
theorem c10_zero_stock_not_seen :
    (∀ c : String, visitAndRead (some (some c, [])) = none) ∧
    (∀ s : WalkState, walkStep s none = { s with visits := s.visits + 1 }) ∧
    (∀ (csvUrls : List String) (extract : String → Option (Option String × List String))
        (page : ProductPage) (col : String),
      col ∈ (productRun csvUrls extract page).seen →
      ∃ u ∈ visitListOf csvUrls page, ∃ c sizes,
        extract u = some (some c, sizes) ∧ sizes ≠ [] ∧
        col = colorKeyOf (c ++ ": " ++ jsJoin ", " sizes)) ∧
    (∀ (s : WalkState) (c : String) (sizes : List String), sizes ≠ [] →
      colorKeyOf (c ++ ": " ++ jsJoin ", " sizes) ∉ s.seen →
      walkStep s (visitAndRead (some (some c, sizes))) =
        ⟨colorKeyOf (c ++ ": " ++ jsJoin ", " sizes) :: s.seen,
         s.variants ++ [c ++ ": " ++ jsJoin ", " sizes], 0, s.visits + 1⟩) := by
  refine ⟨fun c => rfl, fun s => rfl, ?_, ?_⟩
  · intro csvUrls extract page col h
    cases csvUrls with
    | nil => simp [productRun] at h
    | cons first rest =>
      have hrunEq : productRun (first :: rest) extract page =
          walkRemaining (initState (visitAndRead (extract first)))
            (((mergedUrls (first :: rest) (discoverColorUrls page)).filter
              fun u => u ≠ first).map fun u => visitAndRead (extract u)) := rfl
      rw [hrunEq] at h
      rcases walkRemaining_seen_from _ _ _ h with h2 | ⟨v, hv, hcol⟩
      · cases hfr : visitAndRead (extract first) with
        | none =>
          rw [hfr] at h2
          simp [initState] at h2
        | some w =>
          rw [hfr] at h2
          simp only [initState, List.mem_singleton] at h2
          obtain ⟨c, sizes, ho, hs, hw⟩ := (visitAndRead_eq_some_iff _ _).mp hfr
          refine ⟨first, by simp [visitListOf], c, sizes, ho, hs, ?_⟩
          rw [h2, hw]
      · rcases List.mem_map.mp hv with ⟨u, hu, hru⟩
        obtain ⟨c, sizes, ho, hs, hw⟩ := (visitAndRead_eq_some_iff (extract u) v).mp hru
        refine ⟨u, ?_, c, sizes, ho, hs, ?_⟩
        · simp only [visitListOf]
          exact List.mem_cons_of_mem _ hu
        · rw [hcol, hw]
  · intro s c sizes hs hm
    rw [visitAndRead_stocked c sizes hs]
    exact walkStep_some_new s _ hm

/-- C10 witness: a zero-stock visit of color `09-BLACK` yields a null
result; a null result only bumps the visit counter; a later in-stock visit
of the same color is appended as new with the streak reset. -/
theorem c10_zero_stock_not_seen_witness :
    visitAndRead (some (some "09-BLACK", [])) = none ∧
    walkStep ⟨[], [], 0, 1⟩ none = ⟨[], [], 0, 2⟩ ∧
    walkStep ⟨[], [], 0, 2⟩ (visitAndRead (some (some "09-BLACK", ["S"]))) =
      ⟨[colorKeyOf ("09-BLACK" ++ ": " ++ jsJoin ", " ["S"])],
       ["09-BLACK" ++ ": " ++ jsJoin ", " ["S"]], 0, 3⟩ := by
  refine ⟨c10_zero_stock_not_seen.1 "09-BLACK", ?_, ?_⟩
  · exact c10_zero_stock_not_seen.2.1 ⟨[], [], 0, 1⟩
  · exact c10_zero_stock_not_seen.2.2.2 ⟨[], [], 0, 2⟩ "09-BLACK" ["S"]
      (by decide) (by decide)

end Uniqlo
